import Mathlib

/-!
Verification of the betting-odds scrape-and-normalize pipeline of the
Tour-de-France dashboard (`app.py`).

The embedded functions follow the source:

* `convert_american_to_decimal` (app.py lines 19-28): `int(...)` parsing with
  `ValueError`/`TypeError` caught (returning `None`), the positive branch
  `v/100 + 1`, and the non-positive branch `100/abs(v) + 1` in which Python's
  `/` raises an uncaught `ZeroDivisionError` when `abs(v) = 0`.
* `get_ranked_odds_data` (app.py lines 234-308): the Selenium fetch with its
  `try/finally: driver.quit()` (lines 255-291, embedded as `fetchRiderOdds`
  over an outcome oracle), and the pandas post-processing (lines 293-308,
  embedded as `processRiderOdds`): empty check, `drop_duplicates` on the
  rider column, the `'Alle anderen'` sentinel filter, `apply` of the odds
  conversion, `dropna`, ascending sort, and dense 1-based rank assignment.

Python floats are modelled as rationals (`ℚ`); Python exceptions as the
`Except.error` branch of `Except String _`.
-/

deriving instance DecidableEq for Except

/-- A raw scraped record: one `{"Rider": ..., "Odds": ...}` dict appended to
`rider_odds` in app.py line 287. -/
structure OddsQuote where
  entity_name : String
  raw_odds : String
deriving DecidableEq

/-- One row of the final frame `df_final[['Rank', 'Rider', 'Odds']]`
(app.py line 308). -/
structure RankedEntry where
  rank : Nat
  entity_name : String
  decimal_odds : ℚ
deriving DecidableEq

/-- The returned pandas DataFrame, abstracted to its column list and rows.
`pd.DataFrame()` (app.py line 296) is `⟨[], []⟩`: a frame with no columns. -/
structure OddsFrame where
  cols : List String
  entries : List RankedEntry
deriving DecidableEq

/-- Digits-only parse of a character list: the digit-string core of Python's
`int(str)`. Fails unless the list is non-empty and all characters are
decimal digits. -/
def parseDigits (l : List Char) : Option Nat :=
  if l ≠ [] ∧ l.all Char.isDigit then
    some (l.foldl (fun n c => 10 * n + (c.toNat - 48)) 0)
  else none

/-- `int(s)` on a character list: an optional single leading sign followed by
digits. (Python's `int` additionally strips surrounding whitespace and allows
underscore group separators; the scraped strings are already `.strip()`-ed in
app.py lines 284-285 and never contain underscores, so neither case arises.) -/
def pyIntAux (l : List Char) : Option Int :=
  match l with
  | [] => none
  | c :: rest =>
    if c = '+' then (parseDigits rest).map Int.ofNat
    else if c = '-' then (parseDigits rest).map (fun n => -(n : Int))
    else (parseDigits (c :: rest)).map Int.ofNat

/-- Python's `int(s)` for a string, `none` meaning `ValueError`. -/
def pyInt (s : String) : Option Int := pyIntAux s.data

/-- app.py lines 19-28.  `int(american_odds)` failing with
`ValueError`/`TypeError` is caught and yields `None` (`Except.ok none`);
for a parsed value `v > 0` the result is `v/100 + 1`; otherwise the code
computes `100/abs(v) + 1`, where Python's division raises an uncaught
`ZeroDivisionError` when `v = 0`. -/
def convert_american_to_decimal (s : String) : Except String (Option ℚ) :=
  match pyInt s with
  | none => Except.ok none
  | some v =>
    if 0 < v then Except.ok (some ((v : ℚ) / 100 + 1))
    else if v = 0 then Except.error "ZeroDivisionError"
    else Except.ok (some (100 / ((|v| : ℤ) : ℚ) + 1))

/-- Worker for `drop_duplicates(subset=['Rider'])`: keep a row only when its
rider name has not been seen earlier (pandas' default `keep='first'`). -/
def dedupGo (seen : List String) : List OddsQuote → List OddsQuote
  | [] => []
  | q :: rest =>
    if q.entity_name ∈ seen then dedupGo seen rest
    else q :: dedupGo (q.entity_name :: seen) rest

/-- `df.drop_duplicates(subset=['Rider'])` (app.py line 299). -/
def drop_duplicates (qs : List OddsQuote) : List OddsQuote := dedupGo [] qs

/-- `df_final['Odds'].apply(convert_american_to_decimal)` (app.py line 301):
each row's odds string is converted in order; the first row whose conversion
raises aborts the whole `apply` with that exception. -/
def convertAll : List OddsQuote → Except String (List (String × Option ℚ))
  | [] => Except.ok []
  | q :: rest =>
    match convert_american_to_decimal q.raw_odds with
    | Except.error e => Except.error e
    | Except.ok o =>
      match convertAll rest with
      | Except.error e => Except.error e
      | Except.ok rows => Except.ok ((q.entity_name, o) :: rows)

/-- `df_final.dropna(subset=['Odds'])` (app.py line 302): rows whose
conversion produced `None` are removed. -/
def dropna : List (String × Option ℚ) → List (String × ℚ)
  | [] => []
  | (n, some q) :: rest => (n, q) :: dropna rest
  | (_, none) :: rest => dropna rest

/-- The sort key of `sort_values(by="Odds", ascending=True)` (app.py
line 303). -/
def oddsLe (a b : String × ℚ) : Prop := a.2 ≤ b.2

instance : DecidableRel oddsLe :=
  fun a b => inferInstanceAs (Decidable (a.2 ≤ b.2))

instance : IsTotal (String × ℚ) oddsLe := ⟨fun a b => le_total a.2 b.2⟩

instance : IsTrans (String × ℚ) oddsLe := ⟨fun _ _ _ h h2 => le_trans h h2⟩

/-- `df_final.reset_index(drop=True)` followed by
`df_final['Rank'] = df_final.index + 1` (app.py lines 304-305): entry at
0-based position `i` of the sorted list receives rank `k + i`; the pipeline
calls this with `k = 1`. -/
def assignRanks (k : Nat) : List (String × ℚ) → List RankedEntry
  | [] => []
  | (n, q) :: rest => ⟨k, n, q⟩ :: assignRanks (k + 1) rest

/-- The post-scrape processing of `get_ranked_odds_data` (app.py lines
295-308), applied to the scraped `rider_odds` list:
empty guard, `drop_duplicates` on rider, `!= 'Alle anderen'` sentinel filter,
odds conversion (whose `ZeroDivisionError` propagates), `dropna`, ascending
sort by odds, dense 1-based ranks, and the `[['Rank', 'Rider', 'Odds']]`
column selection. -/
def processRiderOdds (rider_odds : List OddsQuote) : Except String OddsFrame :=
  if rider_odds = [] then Except.ok ⟨[], []⟩
  else
    match convertAll ((drop_duplicates rider_odds).filter
        (fun q => q.entity_name != "Alle anderen")) with
    | Except.error e => Except.error e
    | Except.ok rows =>
      Except.ok ⟨["Rank", "Rider", "Odds"],
        assignRanks 1 (List.insertionSort oddsLe (dropna rows))⟩

/-- Observable events of one fetch, for the resource-release discipline of
app.py lines 255-291. -/
inductive ScrapeEvent
  | createSession
  | navigate
  | consent
  | expand
  | extract
  | quitSession
deriving DecidableEq

/-- Outcome oracle for the external effects of one fetch: whether
`webdriver.Chrome(...)` succeeds, whether `driver.get(url)` succeeds, whether
the consent click and the expansion loop succeed (both are swallowed by inner
`try/except` blocks either way), whether the rider-option `find_elements`
call succeeds, and per extracted option either `none` (a sub-field lookup
raised, caught by `except: continue`) or the scraped (name, odds) text
pair. -/
structure ScrapeEnv where
  createOk : Bool
  navOk : Bool
  consentOk : Bool
  expandOk : Bool
  findOk : Bool
  options : List (Option (String × String))
deriving DecidableEq

/-- Per-option extraction (app.py lines 282-289): an exception inside the
loop body skips the option; an extracted pair is kept only when both strings
are non-empty (`if rider_name and odds_value`). -/
def extractOption : Option (String × String) → Option OddsQuote
  | none => none
  | some (n, v) => if n ≠ "" ∧ v ≠ "" then some ⟨n, v⟩ else none

/-- The body of the `try:` block (app.py lines 259-289).  The consent and
expansion steps cannot fail the body (inner `try/except Exception: pass`);
navigation failure and `find_elements` failure raise out of the body. -/
def fetchBody (env : ScrapeEnv) :
    List ScrapeEvent × Except String (List OddsQuote) :=
  if env.navOk = false then
    ([ScrapeEvent.navigate], Except.error "navigation failed")
  else if env.findOk = false then
    ([ScrapeEvent.navigate, ScrapeEvent.consent, ScrapeEvent.expand],
      Except.error "find_elements failed")
  else
    ([ScrapeEvent.navigate, ScrapeEvent.consent, ScrapeEvent.expand,
      ScrapeEvent.extract],
      Except.ok (env.options.filterMap extractOption))

/-- The scraping part of `get_ranked_odds_data` (app.py lines 255-291):
`driver = webdriver.Chrome(...)` (which may itself fail, before any session
exists), then the `try:` body, then `finally: driver.quit()` — the quit event
is appended whether the body returned or raised, and the body's exception, if
any, then propagates. -/
def fetchRiderOdds (env : ScrapeEnv) :
    List ScrapeEvent × Except String (List OddsQuote) :=
  if env.createOk = false then
    ([], Except.error "WebDriverException: session not created")
  else
    let r := fetchBody env
    (ScrapeEvent.createSession :: r.1 ++ [ScrapeEvent.quitSession], r.2)

/-! ## Helper lemmas about the integer parser -/

/-- A character list containing a comma is not a digit string. -/
theorem parseDigits_comma {l : List Char} (h : ',' ∈ l) : parseDigits l = none := by
  rw [parseDigits, if_neg]
  rintro ⟨-, hall⟩
  exact absurd (List.all_eq_true.mp hall ',' h) (by decide)

/-- `int(s)` fails on every string containing a comma. -/
theorem pyInt_comma {s : String} (h : ',' ∈ s.data) : pyInt s = none := by
  rw [pyInt]
  generalize s.data = l at h
  cases l with
  | nil => exact absurd h (List.not_mem_nil _)
  | cons c rest =>
    rw [pyIntAux]
    by_cases h1 : c = '+'
    · have hr : ',' ∈ rest := by
        rcases List.mem_cons.mp h with hc | hc
        · exact absurd (h1 ▸ hc.symm) (by decide)
        · exact hc
      rw [if_pos h1, parseDigits_comma hr]
      rfl
    · by_cases h2 : c = '-'
      · have hr : ',' ∈ rest := by
          rcases List.mem_cons.mp h with hc | hc
          · exact absurd (h2 ▸ hc.symm) (by decide)
          · exact hc
        rw [if_neg h1, if_pos h2, parseDigits_comma hr]
        rfl
      · rw [if_neg h1, if_neg h2, parseDigits_comma h]
        rfl

/-- A conversion that produced a value produced a value greater than 1. -/
theorem convert_gt_one {s : String} {q : ℚ}
    (h : convert_american_to_decimal s = Except.ok (some q)) : 1 < q := by
  cases hp : pyInt s with
  | none => simp only [convert_american_to_decimal, hp] at h; exact absurd h (by simp)
  | some v =>
    simp only [convert_american_to_decimal, hp] at h
    by_cases h0 : 0 < v
    · rw [if_pos h0] at h
      injection h with h
      injection h with h
      have hv : (0 : ℚ) < (v : ℚ) := by exact_mod_cast h0
      have hd := div_pos hv (by norm_num : (0 : ℚ) < 100)
      rw [← h]
      linarith
    · rw [if_neg h0] at h
      by_cases hz : v = 0
      · rw [if_pos hz] at h
        exact absurd h (by simp)
      · rw [if_neg hz] at h
        injection h with h
        injection h with h
        have hv : (0 : ℚ) < ((|v| : ℤ) : ℚ) := by exact_mod_cast abs_pos.mpr hz
        have hd := div_pos (by norm_num : (0 : ℚ) < 100) hv
        rw [← h]
        linarith

/-! ## Claim theorems: odds conversion -/

/-- Claim C1 (counterexample): the code has no locale-decimal path — a
comma-formatted string never parses as an integer, so `"1,50"` does not
convert to the decimal value 1.50; it converts to `None`. -/
theorem locale_decimal_cex :
    convert_american_to_decimal "1,50" = Except.ok none ∧
      convert_american_to_decimal "1,50" ≠ Except.ok (some ((3 : ℚ) / 2)) := by
  have h : pyInt "1,50" = none := by decide
  rw [convert_american_to_decimal, h]
  exact ⟨rfl, by simp⟩

/-- Claim C1 (amended): every raw odds string containing a comma (in
particular every locale comma-decimal string) fails conversion with `None`,
so the quote is dropped from the result set rather than parsed. -/
theorem locale_decimal_dropped (s : String) (h : ',' ∈ s.data) :
    convert_american_to_decimal s = Except.ok none := by
  rw [convert_american_to_decimal, pyInt_comma h]

/-- Witness for `locale_decimal_dropped` at the spec's second example
string `"10,00"`. -/
theorem locale_decimal_dropped_witness :
    convert_american_to_decimal "10,00" = Except.ok none :=
  locale_decimal_dropped "10,00" (by decide)

/-- Claim C2 (code bug): a quote whose raw odds string is `"0"` is not
dropped — `int("0")` succeeds, the non-positive branch computes
`100/abs(0)`, and the resulting `ZeroDivisionError` is not among the caught
exception classes, so it propagates out of the whole
normalization-and-ranking step. -/
theorem zero_odds_raises :
    convert_american_to_decimal "0" = Except.error "ZeroDivisionError" ∧
      processRiderOdds [⟨"A", "0"⟩] = Except.error "ZeroDivisionError" := by
  have h : pyInt "0" = some 0 := by decide
  constructor
  · rw [convert_american_to_decimal, h]
    norm_num
  · rw [processRiderOdds, if_neg (by simp)]
    simp only [drop_duplicates, dedupGo, List.filter, convertAll,
      convert_american_to_decimal, h]
    norm_num

/-- Claim C4: for every string parsing as a nonzero integer `v`, a positive
`v` converts to `v/100 + 1` and a negative `v` converts to `100/|v| + 1`. -/
theorem american_conversion_formula (s : String) (v : ℤ) (hp : pyInt s = some v) :
    (0 < v → convert_american_to_decimal s = Except.ok (some ((v : ℚ) / 100 + 1))) ∧
    (v < 0 → convert_american_to_decimal s = Except.ok (some (100 / ((|v| : ℤ) : ℚ) + 1))) := by
  constructor
  · intro h
    simp only [convert_american_to_decimal, hp]
    rw [if_pos h]
  · intro h
    simp only [convert_american_to_decimal, hp]
    rw [if_neg (by omega : ¬ (0 : ℤ) < v), if_neg (by omega : ¬ v = 0)]

/-- Witness for `american_conversion_formula` at `"+400"` and `"-250"`. -/
theorem american_conversion_formula_witness :
    convert_american_to_decimal "+400" = Except.ok (some (((400 : ℤ) : ℚ) / 100 + 1)) ∧
    convert_american_to_decimal "-250" = Except.ok (some (100 / ((|(-250 : ℤ)| : ℤ) : ℚ) + 1)) :=
  ⟨(american_conversion_formula "+400" 400 (by decide)).1 (by decide),
   (american_conversion_formula "-250" (-250) (by decide)).2 (by decide)⟩

/-- Claim C8: the empty quote sequence yields the empty frame, with no
error. -/
theorem empty_input_empty_output : processRiderOdds [] = Except.ok ⟨[], []⟩ := by
  rw [processRiderOdds, if_pos rfl]

/-- Claim C5: the end-to-end scenario — dedup is a no-op, the sentinel
`"Alle anderen"` row is filtered out, `-250` converts to 1.40, `+400` to
5.00, and the ranks are dense and 1-based in ascending odds order. -/
theorem end_to_end_scenario :
    processRiderOdds [⟨"Rider1", "-250"⟩, ⟨"Rider2", "+400"⟩, ⟨"Alle anderen", "+1000"⟩] =
      Except.ok ⟨["Rank", "Rider", "Odds"],
        [⟨1, "Rider1", 7/5⟩, ⟨2, "Rider2", 5⟩]⟩ := by
  have h1 : pyInt "-250" = some (-250) := by decide
  have h2 : pyInt "+400" = some 400 := by decide
  simp only [processRiderOdds, drop_duplicates, dedupGo, convertAll,
    convert_american_to_decimal, h1, h2, dropna, assignRanks,
    List.insertionSort, List.orderedInsert, List.filter, oddsLe]
  norm_num [List.insertionSort, List.orderedInsert, oddsLe, dropna, assignRanks]
  intro h
  simp at h

/-- Claim C3 (counterexample): on the spec's example input all three odds
strings fail `int()` parsing — the comma-decimal strings `"1,50"` and
`"3,00"` just as much as `"abc"` — so the result has zero entries, not two. -/
theorem malformed_entry_example_cex :
    processRiderOdds [⟨"A", "1,50"⟩, ⟨"B", "abc"⟩, ⟨"C", "3,00"⟩] =
      Except.ok ⟨["Rank", "Rider", "Odds"], []⟩ ∧
    ¬ ∃ f, processRiderOdds [⟨"A", "1,50"⟩, ⟨"B", "abc"⟩, ⟨"C", "3,00"⟩] = Except.ok f ∧
        f.entries.length = 2 := by
  have h1 : pyInt "1,50" = none := by decide
  have h2 : pyInt "abc" = none := by decide
  have h3 : pyInt "3,00" = none := by decide
  have hmain : processRiderOdds [⟨"A", "1,50"⟩, ⟨"B", "abc"⟩, ⟨"C", "3,00"⟩] =
      Except.ok ⟨["Rank", "Rider", "Odds"], []⟩ := by
    simp only [processRiderOdds, drop_duplicates, dedupGo, convertAll,
      convert_american_to_decimal, h1, h2, h3, dropna, assignRanks,
      List.insertionSort, List.orderedInsert, List.filter, oddsLe]
    norm_num [List.insertionSort, dropna, assignRanks]
    intro h
    simp at h
  refine ⟨hmain, ?_⟩
  rintro ⟨f, hf, hlen⟩
  rw [hmain] at hf
  injection hf with hf
  rw [← hf] at hlen
  simp at hlen

/-- Claim C3 (amended): an unparsable odds string is dropped without
aborting the rest — shown on parsable American-format neighbours: input
`[("A","150"), ("B","abc"), ("C","300")]` yields exactly `A` at rank 1
(odds 2.5) and `C` at rank 2 (odds 4.0). -/
theorem malformed_entry_tolerance :
    processRiderOdds [⟨"A", "150"⟩, ⟨"B", "abc"⟩, ⟨"C", "300"⟩] =
      Except.ok ⟨["Rank", "Rider", "Odds"],
        [⟨1, "A", 5/2⟩, ⟨2, "C", 4⟩]⟩ := by
  have h1 : pyInt "150" = some 150 := by decide
  have h2 : pyInt "abc" = none := by decide
  have h3 : pyInt "300" = some 300 := by decide
  simp only [processRiderOdds, drop_duplicates, dedupGo, convertAll,
    convert_american_to_decimal, h1, h2, h3, dropna, assignRanks,
    List.insertionSort, List.orderedInsert, List.filter, oddsLe]
  norm_num [List.insertionSort, List.orderedInsert, oddsLe, dropna, assignRanks]
  intro h
  simp at h

/-- Claim C7 (counterexample): two quotes named `"A"` with different raw
odds, the first unparsable — deduplication keeps the unparsable first
occurrence, so zero entries survive, not exactly one. -/
theorem dedup_first_occurrence_cex :
    processRiderOdds [⟨"A", "abc"⟩, ⟨"A", "150"⟩] =
      Except.ok ⟨["Rank", "Rider", "Odds"], []⟩ ∧
    ¬ ∃ f, processRiderOdds [⟨"A", "abc"⟩, ⟨"A", "150"⟩] = Except.ok f ∧
        f.entries.length = 1 := by
  have h1 : pyInt "abc" = none := by decide
  have hmain : processRiderOdds [⟨"A", "abc"⟩, ⟨"A", "150"⟩] =
      Except.ok ⟨["Rank", "Rider", "Odds"], []⟩ := by
    simp only [processRiderOdds, drop_duplicates, dedupGo, convertAll,
      convert_american_to_decimal, h1, dropna, assignRanks,
      List.insertionSort, List.orderedInsert, List.filter, oddsLe]
    norm_num [List.insertionSort, dropna, assignRanks]
    intro h
    simp at h
  refine ⟨hmain, ?_⟩
  rintro ⟨f, hf, hlen⟩
  rw [hmain] at hf
  injection hf with hf
  rw [← hf] at hlen
  simp at hlen

/-! ## Structural lemmas about the pipeline stages -/

/-- A row surviving deduplication is the first input row bearing its name,
and its name was not previously seen. -/
theorem mem_dedupGo {seen : List String} {qs : List OddsQuote} {p : OddsQuote}
    (hp : p ∈ dedupGo seen qs) :
    p.entity_name ∉ seen ∧
      qs.find? (fun q => q.entity_name == p.entity_name) = some p := by
  induction qs generalizing seen with
  | nil => simp [dedupGo] at hp
  | cons q rest ih =>
    rw [dedupGo] at hp
    by_cases hq : q.entity_name ∈ seen
    · rw [if_pos hq] at hp
      obtain ⟨h1, h2⟩ := ih hp
      have hne : (q.entity_name == p.entity_name) = false := by
        refine beq_eq_false_iff_ne.mpr ?_
        intro he
        exact h1 (he ▸ hq)
      rw [List.find?_cons, hne]
      exact ⟨h1, h2⟩
    · rw [if_neg hq] at hp
      rcases List.mem_cons.mp hp with rfl | hp'
      · refine ⟨hq, ?_⟩
        rw [List.find?_cons, beq_self_eq_true]
      · obtain ⟨h1, h2⟩ := ih hp'
        have hniq : p.entity_name ∉ seen := fun hm => h1 (List.mem_cons_of_mem _ hm)
        have hne : (q.entity_name == p.entity_name) = false := by
          refine beq_eq_false_iff_ne.mpr ?_
          intro he
          exact h1 (by rw [← he]; exact List.mem_cons_self _ _)
        rw [List.find?_cons, hne]
        exact ⟨hniq, h2⟩

/-- Deduplication yields pairwise-distinct rider names. -/
theorem pairwise_dedupGo (seen : List String) (qs : List OddsQuote) :
    (dedupGo seen qs).Pairwise (fun a b => a.entity_name ≠ b.entity_name) := by
  induction qs generalizing seen with
  | nil => simp [dedupGo]
  | cons q rest ih =>
    rw [dedupGo]
    by_cases hq : q.entity_name ∈ seen
    · rw [if_pos hq]
      exact ih seen
    · rw [if_neg hq]
      refine List.Pairwise.cons ?_ (ih _)
      intro p hp he
      exact (mem_dedupGo hp).1 (by rw [← he]; exact List.mem_cons_self _ _)

/-- The converted rows carry exactly the input rider names, in order. -/
theorem convertAll_names {l : List OddsQuote} {rows : List (String × Option ℚ)}
    (h : convertAll l = Except.ok rows) :
    rows.map Prod.fst = l.map OddsQuote.entity_name := by
  induction l generalizing rows with
  | nil =>
    rw [convertAll] at h
    injection h with h
    rw [← h]
    rfl
  | cons q rest ih =>
    rw [convertAll] at h
    cases hc : convert_american_to_decimal q.raw_odds with
    | error e => rw [hc] at h; exact absurd h (by simp)
    | ok o =>
      rw [hc] at h
      cases hr : convertAll rest with
      | error e => rw [hr] at h; exact absurd h (by simp)
      | ok rows' =>
        rw [hr] at h
        injection h with h
        rw [← h]
        simp [ih hr]

/-- Every converted row stems from an input quote with the same name whose
conversion returned that row's odds option. -/
theorem convertAll_mem {l : List OddsQuote} {rows : List (String × Option ℚ)}
    (h : convertAll l = Except.ok rows) {r : String × Option ℚ} (hr : r ∈ rows) :
    ∃ q ∈ l, q.entity_name = r.1 ∧
      convert_american_to_decimal q.raw_odds = Except.ok r.2 := by
  induction l generalizing rows with
  | nil =>
    rw [convertAll] at h
    injection h with h
    rw [← h] at hr
    simp at hr
  | cons q rest ih =>
    rw [convertAll] at h
    cases hc : convert_american_to_decimal q.raw_odds with
    | error e => rw [hc] at h; exact absurd h (by simp)
    | ok o =>
      rw [hc] at h
      cases hrec : convertAll rest with
      | error e => rw [hrec] at h; exact absurd h (by simp)
      | ok rows' =>
        rw [hrec] at h
        injection h with h
        rw [← h] at hr
        rcases List.mem_cons.mp hr with rfl | hr'
        · exact ⟨q, List.mem_cons_self _ _, rfl, hc⟩
        · obtain ⟨q', hq', hname, hconv⟩ := ih hrec hr'
          exact ⟨q', List.mem_cons_of_mem _ hq', hname, hconv⟩

/-- A row surviving `dropna` was present with a `some` odds value. -/
theorem dropna_mem {rows : List (String × Option ℚ)} {p : String × ℚ}
    (hp : p ∈ dropna rows) : (p.1, some p.2) ∈ rows := by
  induction rows with
  | nil => simp [dropna] at hp
  | cons r rest ih =>
    obtain ⟨n, o⟩ := r
    cases o with
    | some q =>
      simp only [dropna] at hp
      rcases List.mem_cons.mp hp with rfl | hp'
      · exact List.mem_cons_self _ _
      · exact List.mem_cons_of_mem _ (ih hp')
    | none =>
      simp only [dropna] at hp
      exact List.mem_cons_of_mem _ (ih hp)

/-- `dropna` preserves pairwise-distinct names. -/
theorem dropna_pairwise {rows : List (String × Option ℚ)}
    (h : rows.Pairwise (fun a b => a.1 ≠ b.1)) :
    (dropna rows).Pairwise (fun a b => a.1 ≠ b.1) := by
  induction rows with
  | nil => simp [dropna]
  | cons r rest ih =>
    obtain ⟨hr, hrest⟩ := List.pairwise_cons.mp h
    obtain ⟨n, o⟩ := r
    cases o with
    | some q =>
      simp only [dropna]
      refine List.Pairwise.cons ?_ (ih hrest)
      intro p hp
      exact hr _ (dropna_mem hp)
    | none =>
      simp only [dropna]
      exact ih hrest

/-- Rank assignment only decorates: projecting the name and odds back out
recovers the sorted list. -/
theorem assignRanks_proj (k : Nat) (l : List (String × ℚ)) :
    (assignRanks k l).map (fun e => (e.entity_name, e.decimal_odds)) = l := by
  induction l generalizing k with
  | nil => rfl
  | cons p rest ih =>
    obtain ⟨n, q⟩ := p
    simp [assignRanks, ih]

/-- Rank assignment preserves length. -/
theorem assignRanks_length (k : Nat) (l : List (String × ℚ)) :
    (assignRanks k l).length = l.length := by
  induction l generalizing k with
  | nil => rfl
  | cons p rest ih =>
    obtain ⟨n, q⟩ := p
    simp [assignRanks, ih]

/-- The entry at 0-based position `i` receives rank `k + i`. -/
theorem assignRanks_rank (k : Nat) (l : List (String × ℚ)) (i : Nat)
    (h : i < (assignRanks k l).length) :
    ((assignRanks k l).get ⟨i, h⟩).rank = k + i := by
  induction l generalizing k i with
  | nil => simp [assignRanks] at h
  | cons p rest ih =>
    obtain ⟨n, q⟩ := p
    cases i with
    | zero => rfl
    | succ i' =>
      have h' : i' < (assignRanks (k + 1) rest).length := by
        simpa [assignRanks] using h
      have := ih (k + 1) i' h'
      simp only [assignRanks, List.get_cons_succ]
      rw [this]
      omega

/-- Case analysis on a successful run of the processing pipeline. -/
theorem processRiderOdds_ok_cases {qs : List OddsQuote} {f : OddsFrame}
    (h : processRiderOdds qs = Except.ok f) :
    f = ⟨[], []⟩ ∨
      ∃ rows, convertAll ((drop_duplicates qs).filter
          (fun q => q.entity_name != "Alle anderen")) = Except.ok rows ∧
        f = ⟨["Rank", "Rider", "Odds"],
          assignRanks 1 (List.insertionSort oddsLe (dropna rows))⟩ := by
  by_cases hqs : qs = []
  · left
    rw [processRiderOdds, if_pos hqs] at h
    injection h with h
    exact h.symm
  · right
    rw [processRiderOdds, if_neg hqs] at h
    cases hc : convertAll ((drop_duplicates qs).filter
        (fun q => q.entity_name != "Alle anderen")) with
    | error e => rw [hc] at h; exact absurd h (by simp)
    | ok rows =>
      rw [hc] at h
      injection h with h
      exact ⟨rows, rfl, h.symm⟩

/-- Rank assignment transfers any pairwise relation on the (name, odds)
projection. -/
theorem pairwise_assignRanks {r : String × ℚ → String × ℚ → Prop} (k : Nat)
    {l : List (String × ℚ)} (hl : l.Pairwise r) :
    (assignRanks k l).Pairwise (fun a b =>
      r (a.entity_name, a.decimal_odds) (b.entity_name, b.decimal_odds)) := by
  induction l generalizing k with
  | nil => simp [assignRanks]
  | cons p rest ih =>
    obtain ⟨n, q⟩ := p
    obtain ⟨hp, hrest⟩ := List.pairwise_cons.mp hl
    simp only [assignRanks]
    refine List.Pairwise.cons ?_ (ih (k + 1) hrest)
    intro e he
    have hm := List.mem_map_of_mem (fun e => (e.entity_name, e.decimal_odds)) he
    rw [assignRanks_proj] at hm
    exact hp _ hm

/-- The output entries bear pairwise-distinct rider names. -/
theorem entries_pairwise_names {qs : List OddsQuote} {f : OddsFrame}
    (h : processRiderOdds qs = Except.ok f) :
    f.entries.Pairwise (fun a b => a.entity_name ≠ b.entity_name) := by
  rcases processRiderOdds_ok_cases h with rfl | ⟨rows, hc, rfl⟩
  · simp
  · have hfin : ((drop_duplicates qs).filter
        (fun q => q.entity_name != "Alle anderen")).Pairwise
          (fun a b => a.entity_name ≠ b.entity_name) :=
      List.Pairwise.sublist (List.filter_sublist _) (pairwise_dedupGo [] qs)
    have hrows : rows.Pairwise (fun a b => a.1 ≠ b.1) := by
      refine List.pairwise_map.mp ?_
      rw [convertAll_names hc]
      exact List.pairwise_map.mpr hfin
    have hsorted : (List.insertionSort oddsLe (dropna rows)).Pairwise
        (fun a b => a.1 ≠ b.1) :=
      List.Pairwise.perm (dropna_pairwise hrows)
        (List.perm_insertionSort oddsLe (dropna rows)).symm (fun hne => hne.symm)
    exact pairwise_assignRanks 1 hsorted

/-- The output entries are sorted by non-decreasing decimal odds. -/
theorem entries_sorted_odds {qs : List OddsQuote} {f : OddsFrame}
    (h : processRiderOdds qs = Except.ok f) :
    f.entries.Pairwise (fun a b => a.decimal_odds ≤ b.decimal_odds) := by
  rcases processRiderOdds_ok_cases h with rfl | ⟨rows, hc, rfl⟩
  · simp
  · have hsorted : (List.insertionSort oddsLe (dropna rows)).Pairwise oddsLe :=
      List.sorted_insertionSort oddsLe (dropna rows)
    exact pairwise_assignRanks 1 hsorted

/-- Every output entry stems, with its exact odds value and name, from some
input quote via a successful conversion. -/
theorem entries_from_input {qs : List OddsQuote} {f : OddsFrame}
    (h : processRiderOdds qs = Except.ok f) {e : RankedEntry} (he : e ∈ f.entries) :
    ∃ q ∈ (drop_duplicates qs).filter (fun q => q.entity_name != "Alle anderen"),
      q.entity_name = e.entity_name ∧
        convert_american_to_decimal q.raw_odds = Except.ok (some e.decimal_odds) := by
  rcases processRiderOdds_ok_cases h with rfl | ⟨rows, hc, rfl⟩
  · simp at he
  · have hproj : (e.entity_name, e.decimal_odds) ∈
        List.insertionSort oddsLe (dropna rows) := by
      have := List.mem_map_of_mem (fun e => (e.entity_name, e.decimal_odds)) he
      rwa [assignRanks_proj] at this
    have hkept : (e.entity_name, e.decimal_odds) ∈ dropna rows :=
      (List.perm_insertionSort oddsLe (dropna rows)).mem_iff.mp hproj
    have hrow : (e.entity_name, some e.decimal_odds) ∈ rows := dropna_mem hkept
    obtain ⟨q, hq, hname, hconv⟩ := convertAll_mem hc hrow
    exact ⟨q, hq, hname, hconv⟩

/-- Claim C6: on every successful run, adjacent output entries have
non-decreasing decimal odds, the entry at 0-based position `i` has rank
`i + 1`, rider names are pairwise distinct, and every decimal odds value
exceeds 1. -/
theorem ranking_invariants (qs : List OddsQuote) (f : OddsFrame)
    (h : processRiderOdds qs = Except.ok f) :
    (∀ i (hi : i + 1 < f.entries.length),
        (f.entries.get ⟨i, Nat.lt_of_succ_lt hi⟩).decimal_odds ≤
          (f.entries.get ⟨i + 1, hi⟩).decimal_odds) ∧
    (∀ i (hi : i < f.entries.length), (f.entries.get ⟨i, hi⟩).rank = i + 1) ∧
    f.entries.Pairwise (fun a b => a.entity_name ≠ b.entity_name) ∧
    (∀ e ∈ f.entries, 1 < e.decimal_odds) := by
  refine ⟨?_, ?_, entries_pairwise_names h, ?_⟩
  · intro i hi
    exact List.pairwise_iff_get.mp (entries_sorted_odds h)
      ⟨i, Nat.lt_of_succ_lt hi⟩ ⟨i + 1, hi⟩ (Nat.lt_succ_self i)
  · intro i hi
    rcases processRiderOdds_ok_cases h with rfl | ⟨rows, hc, rfl⟩
    · simp at hi
    · rw [assignRanks_rank 1 _ i hi]
      omega
  · intro e he
    obtain ⟨q, _, _, hconv⟩ := entries_from_input h he
    exact convert_gt_one hconv

/-- Witness for `ranking_invariants`: on the two-rider input the first
output entry has rank 1. -/
theorem ranking_invariants_witness :
    (([⟨1, "Rider1", 7/5⟩, ⟨2, "Rider2", 5⟩] : List RankedEntry).get
      ⟨0, by decide⟩).rank = 0 + 1 :=
  (ranking_invariants [⟨"Rider1", "-250"⟩, ⟨"Rider2", "+400"⟩]
    ⟨["Rank", "Rider", "Odds"], [⟨1, "Rider1", 7/5⟩, ⟨2, "Rider2", 5⟩]⟩
    (by
      have h1 : pyInt "-250" = some (-250) := by decide
      have h2 : pyInt "+400" = some 400 := by decide
      simp only [processRiderOdds, drop_duplicates, dedupGo, convertAll,
        convert_american_to_decimal, h1, h2, dropna, assignRanks,
        List.insertionSort, List.orderedInsert, List.filter, oddsLe]
      norm_num [List.insertionSort, List.orderedInsert, oddsLe, dropna, assignRanks]
      intro h
      simp at h)).2.1 0 (by decide)

/-- In a list with pairwise-distinct names, at most one entry bears any
given name. -/
theorem countP_names_le_one {l : List RankedEntry} {n : String}
    (h : l.Pairwise (fun a b => a.entity_name ≠ b.entity_name)) :
    l.countP (fun e => e.entity_name == n) ≤ 1 := by
  induction l with
  | nil => simp
  | cons e rest ih =>
    obtain ⟨he, hrest⟩ := List.pairwise_cons.mp h
    rw [List.countP_cons]
    by_cases hn : e.entity_name = n
    · have hz : rest.countP (fun x => x.entity_name == n) = 0 := by
        refine List.countP_eq_zero.mpr ?_
        intro b hb hbn
        exact he b hb (by rw [hn, beq_iff_eq.mp hbn])
      rw [hz]
      simp [hn]
    · have : (e.entity_name == n) = false := beq_eq_false_iff_ne.mpr hn
      rw [this]
      simpa using ih hrest

/-- Claim C7 (amended): at most one output entry bears any given rider
name, and a surviving entry's decimal odds derive from the first input
quote with that name (the one `find?` returns).  Exactly one survives only
when that first occurrence converts successfully and the name is not the
sentinel — see the counterexample for the unparsable-first-occurrence
case. -/
theorem dedup_first_occurrence (qs : List OddsQuote) (n : String) (f : OddsFrame)
    (h : processRiderOdds qs = Except.ok f) :
    f.entries.countP (fun e => e.entity_name == n) ≤ 1 ∧
    ∀ e ∈ f.entries, e.entity_name = n →
      ∃ q, qs.find? (fun p => p.entity_name == n) = some q ∧
        convert_american_to_decimal q.raw_odds = Except.ok (some e.decimal_odds) := by
  refine ⟨countP_names_le_one (entries_pairwise_names h), ?_⟩
  intro e he hn
  obtain ⟨q, hqmem, hname, hconv⟩ := entries_from_input h he
  have hfind := (mem_dedupGo (List.mem_of_mem_filter hqmem)).2
  refine ⟨q, ?_, hconv⟩
  rw [← hn, ← hname]
  exact hfind

/-- Witness for `dedup_first_occurrence`: duplicate name `"A"`, first
occurrence odds `"200"`; one entry survives with odds 3 = 200/100 + 1. -/
theorem dedup_first_occurrence_witness :
    List.countP (fun e => e.entity_name == "A")
      [RankedEntry.mk 1 "A" 3] ≤ 1 :=
  (dedup_first_occurrence [⟨"A", "200"⟩, ⟨"A", "300"⟩] "A"
    ⟨["Rank", "Rider", "Odds"], [⟨1, "A", 3⟩]⟩
    (by
      have h1 : pyInt "200" = some 200 := by decide
      simp only [processRiderOdds, drop_duplicates, dedupGo, convertAll,
        convert_american_to_decimal, h1, dropna, assignRanks,
        List.insertionSort, List.orderedInsert, List.filter, oddsLe]
      norm_num [List.insertionSort, dropna, assignRanks]
      intro h
      simp at h)).1

/-- Claim C9: whenever the browser session is created, the event trace of
the fetch ends with the session-release event — the `finally` block runs
quit before the fetch returns its quotes or propagates the body's
exception. -/
theorem session_always_released (env : ScrapeEnv) (h : env.createOk = true) :
    (fetchRiderOdds env).1 =
      ScrapeEvent.createSession :: (fetchBody env).1 ++ [ScrapeEvent.quitSession] ∧
    ScrapeEvent.quitSession ∈ (fetchRiderOdds env).1 := by
  have heq : (fetchRiderOdds env).1 =
      ScrapeEvent.createSession :: (fetchBody env).1 ++ [ScrapeEvent.quitSession] := by
    rw [fetchRiderOdds, if_neg (by simp [h])]
  exact ⟨heq, by rw [heq]; simp⟩

/-- Witness for `session_always_released` on an exception path: navigation
fails, the body raises, and the trace still ends with the release event. -/
theorem session_always_released_witness :
    (fetchRiderOdds ⟨true, false, true, true, true, []⟩).1 =
      ScrapeEvent.createSession :: (fetchBody ⟨true, false, true, true, true, []⟩).1 ++
        [ScrapeEvent.quitSession] ∧
    ScrapeEvent.quitSession ∈ (fetchRiderOdds ⟨true, false, true, true, true, []⟩).1 :=
  session_always_released ⟨true, false, true, true, true, []⟩ rfl

/-- Claim C10: the no-scrape result is an empty frame with no columns;
every successful result with at least one entry has exactly the columns
Rank, Rider, Odds in that order; and some non-empty input produces an
empty result that nevertheless has those three columns — so emptiness, not
the column schema, is the reliable no-data signal. -/
theorem empty_schema_detection :
    processRiderOdds [] = Except.ok ⟨[], []⟩ ∧
    (∀ qs f, processRiderOdds qs = Except.ok f → f.entries ≠ [] →
      f.cols = ["Rank", "Rider", "Odds"]) ∧
    (∃ qs f, qs ≠ [] ∧ processRiderOdds qs = Except.ok f ∧ f.entries = [] ∧
      f.cols = ["Rank", "Rider", "Odds"]) := by
  refine ⟨by rw [processRiderOdds, if_pos rfl], ?_, ?_⟩
  · intro qs f h hne
    rcases processRiderOdds_ok_cases h with rfl | ⟨rows, hc, rfl⟩
    · exact absurd rfl hne
    · rfl
  · refine ⟨[⟨"B", "abc"⟩], ⟨["Rank", "Rider", "Odds"], []⟩, by simp, ?_, rfl, rfl⟩
    have h1 : pyInt "abc" = none := by decide
    simp only [processRiderOdds, drop_duplicates, dedupGo, convertAll,
      convert_american_to_decimal, h1, dropna, assignRanks,
      List.insertionSort, List.filter, oddsLe]
    norm_num [List.insertionSort, dropna, assignRanks]

/-- Witness for `empty_schema_detection`: a non-empty successful result has
the three-column schema. -/
theorem empty_schema_detection_witness :
    (OddsFrame.mk ["Rank", "Rider", "Odds"] [RankedEntry.mk 1 "A" 3]).cols =
      ["Rank", "Rider", "Odds"] :=
  empty_schema_detection.2.1 [⟨"A", "200"⟩]
    ⟨["Rank", "Rider", "Odds"], [⟨1, "A", 3⟩]⟩
    (by
      have h1 : pyInt "200" = some 200 := by decide
      simp only [processRiderOdds, drop_duplicates, dedupGo, convertAll,
        convert_american_to_decimal, h1, dropna, assignRanks,
        List.insertionSort, List.orderedInsert, List.filter, oddsLe]
      norm_num [List.insertionSort, dropna, assignRanks])
    (by simp)
